import Mathlib

/-!
Verification development for the Argon report-ingestion connector
(`src/bq.ts`, `src/cm.ts`, `src/dv.ts`, `src/reports.ts`, `src/index.ts`).

The TypeScript sources are shallowly embedded as executable Lean
definitions: stream transforms become state machines driven by the list
of input lines, the paginated report-file listing becomes a fuel-indexed
loop over an abstract page source, and functions that mutate an argument
in place return the argument's post-call value as an extra component.
External collaborators (the BigQuery table-creation endpoint, the
reporting API) are parameters of the model.
-/

namespace Argon

/-- One field of a BigQuery table schema (`TableField`): a column name and
a type string. The connector only ever materializes both components, so
they are embedded as total fields. -/
structure TableField where
  name : String
  type : String
deriving DecidableEq, Repr

/-- A BigQuery table schema (`TableSchema`): the ordered field list. -/
structure TableSchema where
  fields : List TableField
deriving DecidableEq, Repr

/-- `buildValidBQName` from `src/bq.ts`: replace every character outside
`[a-zA-Z0-9]` with an underscore, then lowercase. Both steps act
character by character (an underscore is unchanged by lowercasing), so
they are embedded as one pass over the character list. -/
def buildValidBQName (name : String) : String :=
  String.mk (name.toList.map (fun c => if c.isAlphanum then c.toLower else '_'))

/-- `FILE_ID_COLUMN` from `src/bq.ts`: the normalized tracking-column
name `buildValidBQName('File ID')`. -/
def FILE_ID_COLUMN : String := buildValidBQName "File ID"

/-- The `while (usedNames.has(fieldName))` suffixing loop inside
`buildSchema`: starting from suffix index `i`, find the first candidate
`valid ++ "_" ++ i` not yet used. The loop in the source terminates
because only finitely many names are used; the embedding carries that
bound as fuel (`used.length + 1` attempts always suffice, since the
candidates are pairwise distinct strings). -/
def fieldNameLoop (used : List String) (valid : String) : Nat → Nat → String
  | 0, i => valid ++ "_" ++ toString i
  | fuel + 1, i =>
    let cand := valid ++ "_" ++ toString i
    if cand ∈ used then fieldNameLoop used valid fuel (i + 1) else cand

/-- One iteration of the `names.map` body in `buildSchema`: normalize the
raw name and de-duplicate against the already-used names. -/
def pickFieldName (used : List String) (name : String) : String :=
  let valid := buildValidBQName name
  if valid ∈ used then fieldNameLoop used valid (used.length + 1) 1 else valid

/-- The field-building fold of `buildSchema`: map each raw name to a
`STRING`-typed field with a de-duplicated valid name, threading the
`usedNames` set (embedded as the list of names chosen so far). -/
def buildFieldsAux : List String → List String → List TableField
  | [], _ => []
  | n :: rest, used =>
    let fname := pickFieldName used n
    ⟨fname, "STRING"⟩ :: buildFieldsAux rest (fname :: used)

/-- `buildSchema` from `src/bq.ts`. The source mutates its argument:
`names.push(FILE_ID_COLUMN)` appends the tracking column to the caller's
array before the fields are built. The embedding returns a pair: the
built schema, and the caller's array as it stands after the call. -/
def buildSchema (names : List String) : TableSchema × List String :=
  let pushed := names ++ [FILE_ID_COLUMN]
  (⟨buildFieldsAux pushed []⟩, pushed)

/-- Positional field comparison inside `compareSchema`: equal length and,
at every index, equal name and equal type. -/
def compareFields : List TableField → List TableField → Bool
  | [], [] => true
  | l :: ls, r :: rs => (l.name == r.name && l.type == r.type) && compareFields ls rs
  | _, _ => false

/-- `compareSchema` from `src/bq.ts`: order-sensitive positional equality
of the two field lists (length mismatch gives `false`, not an error). -/
def compareSchema (left right : TableSchema) : Bool :=
  compareFields left.fields right.fields

/-- `deepCopy` from `src/bq.ts` (a JSON round trip). In a pure value
model a deep copy is the value itself; its role in the source is to
shield the caller's schema from the in-place renames performed by
`transformSchema`. -/
def deepCopy (fields : List TableField) : List TableField := fields

/-- One entry of the `patternMap` passed to `transformSchema`
(`Map<RegExp, string>`): an abstract regex given by its match test
(`oldPattern.test(name)`) and its first-match replacement
(`name.replace(oldPattern, newString)`). -/
structure RenamePattern where
  test : String → Bool
  apply : String → String

/-- The inner `for (const [oldPattern, newString] of patternMap)` loop of
`transformSchema`, for one field: `fieldName` is captured once (`const`),
so every matching pattern rewrites the original name and the last match
wins; the boolean records whether any pattern matched. -/
def renameField (patternMap : List RenamePattern) (name : String) : String × Bool :=
  patternMap.foldl
    (fun acc p => if p.test name then (p.apply name, true) else acc)
    (name, false)

/-- The outer field loop of `transformSchema`: rewrite each field's name
via `renameField`, and record in the boolean whether any field matched
any pattern (`renamed`). -/
def transformFields (patternMap : List RenamePattern) :
    List TableField → List TableField × Bool
  | [] => ([], false)
  | f :: rest =>
    let hd := renameField patternMap f.name
    let tl := transformFields patternMap rest
    (⟨hd.1, f.type⟩ :: tl.1, hd.2 || tl.2)

/-- `transformSchema` from `src/bq.ts` (the spec's `migrateNames`):
deep-copy the fields, rewrite names by the pattern map, and return the
new schema only if some pattern matched (`null` otherwise). The second
component is the caller's schema after the call, which the deep copy
leaves untouched. -/
def transformSchema (schema : TableSchema) (patternMap : List RenamePattern) :
    Option TableSchema × TableSchema :=
  let r := transformFields patternMap (deepCopy schema.fields)
  (if r.2 then some ⟨r.1⟩ else none, schema)

/-- `getNames` from `src/bq.ts`: the list of field names. -/
def getNames (schema : TableSchema) : List String :=
  schema.fields.map (·.name)

/-- Does the character list begin with the literal `360`? This is the
negative-lookahead subject of the `/d?cm(?!360)/` rename pattern in
`src/reports.ts`. -/
def startsWith360 : List Char → Bool
  | '3' :: '6' :: '0' :: _ => true
  | _ => false

/-- First-match replacement for the regex `/d?cm(?!360)/ → 'cm360'` from
`NAME_PATTERNS` in `src/reports.ts`, scanning left to right. At a given
position the regex engine first tries the greedy `d?` branch (`dcm` not
followed by `360`), backtracks to the bare `cm` branch (impossible at a
position starting with `d`), and otherwise moves one character right.
`none` means no match anywhere in the string. -/
def cmReplaceAux : List Char → Option (List Char)
  | [] => none
  | 'd' :: 'c' :: 'm' :: rest =>
    if startsWith360 rest then (cmReplaceAux ('c' :: 'm' :: rest)).map ('d' :: ·)
    else some ("cm360".toList ++ rest)
  | 'c' :: 'm' :: rest =>
    if startsWith360 rest then (cmReplaceAux ('m' :: rest)).map ('c' :: ·)
    else some ("cm360".toList ++ rest)
  | c :: rest => (cmReplaceAux rest).map (c :: ·)

/-- First-match replacement for the regex `/dbm/ → 'dv360'` from
`NAME_PATTERNS` in `src/reports.ts`. -/
def dbmReplaceAux : List Char → Option (List Char)
  | 'd' :: 'b' :: 'm' :: rest => some ("dv360".toList ++ rest)
  | [] => none
  | c :: rest => (dbmReplaceAux rest).map (c :: ·)

/-- The `/d?cm(?!360)/ → 'cm360'` entry of `NAME_PATTERNS`
(`src/reports.ts`): `test` is `RegExp.test`, `apply` is the non-global
`String.replace` (first match only; identity when there is no match,
though `transformSchema` only applies it after a successful test). -/
def cmPattern : RenamePattern where
  test s := (cmReplaceAux s.toList).isSome
  apply s :=
    match cmReplaceAux s.toList with
    | some l => String.mk l
    | none => s

/-- The `/dbm/ → 'dv360'` entry of `NAME_PATTERNS` (`src/reports.ts`). -/
def dbmPattern : RenamePattern where
  test s := (dbmReplaceAux s.toList).isSome
  apply s :=
    match dbmReplaceAux s.toList with
    | some l => String.mk l
    | none => s

/-- `NAME_PATTERNS` from `src/reports.ts`, in map insertion order. -/
def NAME_PATTERNS : List RenamePattern := [cmPattern, dbmPattern]

/-!
## The CSV extractor base (`CSVExtractorBase`, `src/reports.ts`)

The stream transform is embedded as a state machine. The observable
output (`this.push`) is collected as the list of emitted lines; the
BigQuery `table.create` collaborator is a parameter `createResp` giving
the authoritative schema the destination returns for a requested schema.
`createdWith` records the schema passed to `table.create` (if it was
called) and `hfCalls` counts the invocations of `handleFields`; both are
ghost instrumentation, absent from the source, with no effect on the
transition behaviour.
-/

/-- State of `CSVExtractorBase` (`src/reports.ts`): the schema of record
(`tableSchema`, `null` embedded as `none`), the precomputed
`fileIdColumn` suffix, the emitted-row counter, the pushed output, an
error flag (an emitted/`done`-reported error destroys the stream), and
the ghost fields described above. -/
structure ExtractorSt where
  tableSchema : Option TableSchema
  fileIdColumn : String
  counter : Nat
  output : List String
  errored : Bool
  createdWith : Option TableSchema
  hfCalls : Nat
deriving Repr

/-- Initial `CSVExtractorBase` state for a given constructor argument
pair: `fileIdColumn` is `',' + fileId`. -/
def extractorInit (tableSchema : Option TableSchema) (fileId : Nat) : ExtractorSt where
  tableSchema := tableSchema
  fileIdColumn := "," ++ toString fileId
  counter := 0
  output := []
  errored := false
  createdWith := none
  hfCalls := 0

/-- `pushLine` from `src/reports.ts`: push the csv line, the file-ID
column, and a newline (collected here as one appended output line), and
increment the row counter. -/
def pushLine (st : ExtractorSt) (chunk : String) : ExtractorSt :=
  { st with
    output := st.output ++ [chunk ++ st.fileIdColumn ++ "\n"]
    counter := st.counter + 1 }

/-- `_flush` from `src/reports.ts`: at end of input an error is emitted
exactly when the counter is zero (`Error('No CSV lines found.')`). -/
def flushErrors (st : ExtractorSt) : Bool :=
  st.counter == 0

/-- `createTable` from `src/reports.ts`: ask the destination to create
the table with the freshly built schema, and adopt the schema the
destination returns (`metadata.schema`, modelled by `createResp`) as the
schema of record. -/
def createTable (createResp : TableSchema → TableSchema) (st : ExtractorSt)
    (schema : TableSchema) : ExtractorSt :=
  { st with
    tableSchema := some (createResp schema)
    createdWith := some schema }

/-- `checkSchema` from `src/reports.ts`: compare the schema of record
against the candidate; on mismatch rename the schema of record's legacy
columns via `transformSchema` with `NAME_PATTERNS` and re-compare; if
still mismatched emit `Error('Schema does not match.')`. -/
def checkSchema (st : ExtractorSt) (expected schema : TableSchema) : ExtractorSt :=
  if compareSchema expected schema then st
  else
    let schemaMatches :=
      match (transformSchema expected NAME_PATTERNS).1 with
      | some renamedSchema => compareSchema renamedSchema schema
      | none => false
    if schemaMatches then st else { st with errored := true }

/-- `handleFields` from `src/reports.ts`: build the report schema from
the header names, then either create the table (no schema of record yet)
or check the schemas for consistency. -/
def handleFields (createResp : TableSchema → TableSchema) (st : ExtractorSt)
    (names : List String) : ExtractorSt :=
  let st' := { st with hfCalls := st.hfCalls + 1 }
  let reportSchema := (buildSchema names).1
  match st'.tableSchema with
  | none => createTable createResp st' reportSchema
  | some expected => checkSchema st' expected reportSchema

/-!
## The legacy (CM) extractor (`CMCSVExtractor`, `src/cm.ts`)
-/

/-- The `FIELDS_HEADER` sentinel of `CMCSVExtractor`. -/
def FIELDS_HEADER : String := "Report Fields"

/-- State of `CMCSVExtractor` (`src/cm.ts`): the base state plus the
one-line-behind buffer `previous` and the three phase flags. -/
structure CMSt where
  base : ExtractorSt
  previous : String
  fieldsFound : Bool
  csvFound : Bool
  passthrough : Bool
deriving Repr

/-- Initial `CMCSVExtractor` state (`previous` starts as `''`). -/
def cmInit (tableSchema : Option TableSchema) (fileId : Nat) : CMSt where
  base := extractorInit tableSchema fileId
  previous := ""
  fieldsFound := false
  csvFound := false
  passthrough := false

/-- `CMCSVExtractor._transform` from `src/cm.ts`, one input line:
passthrough emits the buffered previous line and buffers the new one;
the first line after the header only starts the buffer; the line after
the `Report Fields` sentinel is the header and triggers `handleFields`
(comma-split names); the sentinel itself flips `fieldsFound`; anything
earlier is metadata and is skipped. -/
def cmTransform (createResp : TableSchema → TableSchema) (st : CMSt)
    (chunk : String) : CMSt :=
  if st.passthrough then
    { st with base := pushLine st.base st.previous, previous := chunk }
  else if st.csvFound then
    { st with previous := chunk, passthrough := true }
  else if st.fieldsFound then
    { st with
      base := handleFields createResp st.base (chunk.splitOn ",")
      csvFound := true }
  else if chunk = FIELDS_HEADER then
    { st with fieldsFound := true }
  else st

/-- Drive `CMCSVExtractor` over a list of input lines. A reported error
(`done(reason)`) destroys the stream, so no further lines are
processed. -/
def cmRun (createResp : TableSchema → TableSchema) (st : CMSt) :
    List String → CMSt
  | [] => st
  | l :: rest =>
    if st.base.errored then st
    else cmRun createResp (cmTransform createResp st l) rest

/-!
## The programmatic (DV) extractor (`DVCSVExtractor`, `src/dv.ts`)
-/

/-- `DV_DATE_PATTERN` match test at the head of a character list: does it
begin with `\d{4}/\d{2}/\d{2}` (a slash-delimited `YYYY/MM/DD` date)? -/
def dateAtHead : List Char → Bool
  | y1 :: y2 :: y3 :: y4 :: s1 :: m1 :: m2 :: s2 :: d1 :: d2 :: _ =>
    y1.isDigit && y2.isDigit && y3.isDigit && y4.isDigit && s1 == '/' &&
      m1.isDigit && m2.isDigit && s2 == '/' && d1.isDigit && d2.isDigit
  | _ => false

/-- The body of `convertDate` (`src/dv.ts`):
`line.replace(DV_DATE_PATTERN, BQ_DATE_REPLACE)` with a non-global
regex, so exactly the leftmost match has its two slashes replaced by
dashes and scanning stops there. -/
def convertDateAux : List Char → List Char
  | [] => []
  | c :: rest =>
    if dateAtHead (c :: rest) then
      (c :: rest).take 4 ++ '-' :: ((c :: rest).drop 5).take 2 ++
        '-' :: ((c :: rest).drop 8).take 2 ++ (c :: rest).drop 10
    else c :: convertDateAux rest

/-- `convertDate` from `src/dv.ts`: rewrite a `YYYY/MM/DD` date token to
`YYYY-MM-DD` in the line (first match only — the regex has no `g`
flag). -/
def convertDate (line : String) : String :=
  String.mk (convertDateAux line.toList)

/-- State of `DVCSVExtractor` (`src/dv.ts`): the base state plus the
`csvFound`/`summaryFound` phase flags. -/
structure DVSt where
  base : ExtractorSt
  csvFound : Bool
  summaryFound : Bool
deriving Repr

/-- Initial `DVCSVExtractor` state. -/
def dvInit (tableSchema : Option TableSchema) (fileId : Nat) : DVSt where
  base := extractorInit tableSchema fileId
  csvFound := false
  summaryFound := false

/-- Does the line begin with a comma (`line[0] === ','`)? -/
def startsWithComma (s : String) : Bool :=
  match s.toList with
  | ',' :: _ => true
  | _ => false

/-- `DVCSVExtractor._transform` from `src/dv.ts`, one input line: in the
csv phase an empty line or a line starting with a comma begins the
summary block (skipped), any other line is emitted after date
conversion; once the summary is found remaining input is discarded
(`push(null)` ends the row stream); the very first line is the header
and triggers `handleFields`. -/
def dvTransform (createResp : TableSchema → TableSchema) (st : DVSt)
    (chunk : String) : DVSt :=
  if st.csvFound then
    if chunk.length == 0 || startsWithComma chunk then
      { st with summaryFound := true, csvFound := false }
    else
      { st with base := pushLine st.base (convertDate chunk) }
  else if st.summaryFound then st
  else
    { st with
      base := handleFields createResp st.base (chunk.splitOn ",")
      csvFound := true }

/-- Drive `DVCSVExtractor` over a list of input lines (a reported error
destroys the stream). -/
def dvRun (createResp : TableSchema → TableSchema) (st : DVSt) :
    List String → DVSt
  | [] => st
  | l :: rest =>
    if st.base.errored then st
    else dvRun createResp (dvTransform createResp st l) rest

/-!
## The legacy (CM) report enumerator (`CMReportFetcher.getReports`,
`src/cm.ts`)

The paginated file-listing endpoint is abstracted as a function from the
`nextPageToken` request parameter to the returned page. `getReports` is
a `do … while (nextPageToken)` loop; the embedding indexes it by fuel
(the number of page requests allowed), so `none` means the loop is still
running after that many requests — if that holds for every fuel, the
source loop never terminates.
-/

/-- One item of `CMReportFilesResponse.items` (`src/typings.ts`), with
`id` embedded after the `Number(report.id)` conversion. -/
structure CMFileItem where
  id : Nat
  status : String
  apiUrl : String

/-- One page of `CMReportFilesResponse` (`src/typings.ts`). -/
structure CMPage where
  nextPageToken : String
  items : List CMFileItem

/-- `REPORT_AVAILABLE_STATE` of `CMReportFetcher` (`src/cm.ts`). -/
def REPORT_AVAILABLE_STATE : String := "REPORT_AVAILABLE"

/-- `Map.set` on the `reports` insertion-ordered map: update the value
in place if the key exists, else append the binding. -/
def mapSet (m : List (Nat × String)) (k : Nat) (v : String) :
    List (Nat × String) :=
  if m.any (·.1 == k) then m.map (fun p => if p.1 == k then (k, v) else p)
  else m ++ [(k, v)]

/-- The `for (const report of response.data.items)` loop of
`getReports` (`src/cm.ts`): record unseen file ids (and their url when
the status is available); on the first already-seen id, `break` — which
in the source exits only this item loop. Returns the updated
`(seenFileIds, reports)`. -/
def processItems : List CMFileItem → List Nat → List (Nat × String) →
    List Nat × List (Nat × String)
  | [], seen, reports => (seen, reports)
  | item :: rest, seen, reports =>
    if item.id ∈ seen then (seen, reports)
    else
      processItems rest (item.id :: seen)
        (if item.status == REPORT_AVAILABLE_STATE then
          mapSet reports item.id item.apiUrl
        else reports)

/-- The `do … while (nextPageToken)` loop of `getReports` (`src/cm.ts`),
fuelled by the number of page requests allowed: request the page for the
current token; an empty item list breaks out returning the map; else
adopt the page's `nextPageToken`, run the item loop, and continue while
the token is non-empty. `none` = fuel exhausted with the loop still
running. -/
def getReportsLoop (source : String → CMPage) :
    Nat → String → List Nat → List (Nat × String) →
      Option (List (Nat × String))
  | 0, _, _, _ => none
  | fuel + 1, token, seen, reports =>
    let page := source token
    if page.items.length == 0 then some reports
    else
      let next := page.nextPageToken
      let step := processItems page.items seen reports
      if next = "" then some step.2
      else getReportsLoop source fuel next step.1 step.2

/-- `CMReportFetcher.getReports` (`src/cm.ts`): start with an empty
token, no seen ids and an empty map. -/
def getReports (source : String → CMPage) (fuel : Nat) :
    Option (List (Nat × String)) :=
  getReportsLoop source fuel "" [] []

/-- A paginated source exhibiting the upstream API bug that `getReports`
is documented to guard against: every request returns the same final
page (same single available item) with a fresh, never-empty page token
(the token grows by one character per request). -/
def buggedSource : String → CMPage := fun token =>
  ⟨token ++ "x", [⟨1, REPORT_AVAILABLE_STATE, "apiUrl1"⟩]⟩

/-!
## The orchestrator (`argon`, `src/index.ts`)

The destination-table resolution and pending-queue computation are the
pure decisions of the `argon` handler; the warehouse answers
(`table.exists()`, `table.getMetadata().schema`, the lookback query
rows) are parameters.
-/

/-- Outcome of the table-resolution phase of `argon` (`src/index.ts`):
whether `table.delete()` was issued, the final value of the
`tableExists` flag, and the `tableSchema` carried into the pipeline. -/
structure TableResolution where
  deleted : Bool
  tableExists : Bool
  tableSchema : Option TableSchema
deriving DecidableEq, Repr

/-- The table-resolution phase of `argon` (`src/index.ts`): when the
table exists and `replace` mode is set, delete it and treat it as absent
thereafter; when it exists otherwise, fetch and keep its schema; when it
does not exist, carry a `null` schema. -/
def resolveTable (tableExists replaceMode : Bool)
    (metadataSchema : TableSchema) : TableResolution :=
  if tableExists then
    if replaceMode then ⟨true, false, none⟩
    else ⟨false, true, some metadataSchema⟩
  else ⟨false, false, none⟩

/-- The `ComputeIngestedSet` phase of `argon` (`src/index.ts`): the
lookback query for already-ingested file ids runs only when the table
(still) exists; otherwise the ingested set stays empty. -/
def computeIngestedIds (tableExists : Bool) (queryIds : List Nat) : List Nat :=
  if tableExists then queryIds else []

/-- The pending-queue computation of `argon` (`src/index.ts`): discovered
file ids, minus ingested and ignored, sorted by the comparator selected
by `newest` (`descendingComparator` when set, `ascendingComparator`
otherwise; both from `src/helpers.ts`). JavaScript `Array.sort` with a
total numeric comparator is a stable comparison sort, embedded as a
stable insertion sort (the two agree on every input; on the
duplicate-free key lists produced by `reports.keys()` the sorted
permutation is in any case unique). -/
def computePendingIds (discovered ingested ignored : List Nat)
    (newest : Bool) : List Nat :=
  let pending :=
    discovered.filter fun id => !ingested.contains id && !ignored.contains id
  if newest then pending.insertionSort (· ≥ ·) else pending.insertionSort (· ≤ ·)

/-- Restatement, in the spec's words, of what `migrateNames` does to one
field name: every pattern is applied to the (original) field name, a
matching pattern rewrites it, and with several matches the last one in
map order wins. Used to characterize `transformSchema`. -/
def specRenamedName (patternMap : List RenamePattern) (name : String) : String :=
  patternMap.foldl (fun cur p => if p.test name then p.apply name else cur) name

/-!
## Theorems
-/

/-- Claim C10: `buildSchema` mutates its argument — `names.push` appends
the tracking column, the normalized form of `File ID`, so after the call
the caller's array has exactly one extra element, `file_id`, at the
end. -/
theorem C10_buildSchema_mutates_names :
    ∀ names : List String,
      (buildSchema names).2 = names ++ [buildValidBQName "File ID"] ∧
        buildValidBQName "File ID" = "file_id" :=
  fun _ => ⟨rfl, by decide⟩

/-- Claim C8 counterexample: called with an empty list of header fields,
`buildSchema` does not fail — it returns a schema (with the single
tracking-column field), contradicting the claim that no schema is
returned in that case. The embedded `buildSchema` is total because the
source function has no failing path. -/
theorem C8_counterexample :
    (buildSchema ([] : List String)).1 = ⟨[⟨"file_id", "STRING"⟩]⟩ := by
  decide

/-- Claim C8 (amended): `buildSchema` never fails; it always returns a
schema with one field per header name plus the tracking column, and on
an empty header list that schema consists of the tracking column
alone. -/
theorem C8_buildSchema_total :
    (buildSchema ([] : List String)).1.fields = [⟨"file_id", "STRING"⟩] ∧
      ∀ names : List String,
        (buildSchema names).1.fields.length = names.length + 1 := by
  constructor
  · decide
  · intro names
    show (buildFieldsAux (names ++ [FILE_ID_COLUMN]) []).length = names.length + 1
    have h : ∀ (ns : List String) (used : List String),
        (buildFieldsAux ns used).length = ns.length := by
      intro ns
      induction ns with
      | nil => intro used; rfl
      | cons n rest ih => intro used; simp [buildFieldsAux, ih]
    simp [h]

/-- Claim C4 (code bug): `convertDate` rewrites only the first
slash-delimited date of a line (the regex is not global), so a DV data
row containing two date tokens is emitted with the second one still
slash-delimited, despite the function's own documentation
("throughout the line"). -/
theorem C4_convertDate_first_match_only :
    convertDate "2022/01/05,2022/01/06" = "2022-01-05,2022/01/06" ∧
      (dvRun id (dvInit none 7)
          ["Click Date,Other Date", "2022/01/05,2022/01/06"]).base.output =
        ["2022-01-05,2022/01/06,7\n"] := by
  constructor
  · decide
  · decide

/-- Claim C7: with the destination table existing and replace mode set,
the orchestrator deletes the table, thereafter treats it as absent — no
schema of record and an empty ingested-id set are carried into the run —
and the first processed file's header goes down the table-creation path
of `handleFields`. -/
theorem C7_replace_mode :
    ∀ (metadataSchema : TableSchema) (queryIds : List Nat)
      (createResp : TableSchema → TableSchema) (st : ExtractorSt)
      (names : List String),
      resolveTable true true metadataSchema = ⟨true, false, none⟩ ∧
        computeIngestedIds (resolveTable true true metadataSchema).tableExists
            queryIds = [] ∧
        (handleFields createResp
              { st with
                tableSchema := (resolveTable true true metadataSchema).tableSchema }
              names).createdWith =
          some (buildSchema names).1 := by
  intro metadataSchema queryIds createResp st names
  refine ⟨rfl, rfl, ?_⟩
  simp [resolveTable, handleFields, createTable]

/-- The per-field rename loop computes the spec-level renamed name and
the "did any pattern match" flag. -/
theorem renameField_eq (patternMap : List RenamePattern) (name : String) :
    renameField patternMap name =
      (specRenamedName patternMap name, patternMap.any (fun p => p.test name)) := by
  suffices h : ∀ (pm : List RenamePattern) (cur : String) (b : Bool),
      pm.foldl (fun acc p => if p.test name then (p.apply name, true) else acc)
          (cur, b) =
        (pm.foldl (fun cur p => if p.test name then p.apply name else cur) cur,
          b || pm.any (fun p => p.test name)) by
    simpa [renameField, specRenamedName] using h patternMap name false
  intro pm
  induction pm with
  | nil => intro cur b; simp
  | cons p rest ih =>
    intro cur b
    by_cases hp : p.test name
    · simp [hp, ih]
    · simp [hp, ih]

/-- The field loop of `transformSchema` maps `specRenamedName` over the
fields and reports whether any field name matched any pattern. -/
theorem transformFields_eq (patternMap : List RenamePattern) (fs : List TableField) :
    transformFields patternMap fs =
      (fs.map (fun f => ⟨specRenamedName patternMap f.name, f.type⟩),
        fs.any (fun f => patternMap.any (fun p => p.test f.name))) := by
  induction fs with
  | nil => rfl
  | cons f rest ih => simp [transformFields, renameField_eq, ih]

/-- Claim C9: `transformSchema` returns `none` exactly when no pattern
matches any field name, otherwise a new schema whose matched field names
are rewritten (each name replaced according to the matching patterns,
types untouched); and the caller's schema is left unmodified (second
component of the embedding, protected by the deep copy). -/
theorem C9_transformSchema_characterization :
    ∀ (schema : TableSchema) (patternMap : List RenamePattern),
      transformSchema schema patternMap =
        (if schema.fields.any (fun f => patternMap.any (fun p => p.test f.name))
          then some
            ⟨schema.fields.map (fun f => ⟨specRenamedName patternMap f.name, f.type⟩)⟩
          else none,
          schema) := by
  intro schema patternMap
  simp only [transformSchema, deepCopy, transformFields_eq]

/-- Claim C6: the pending queue holds exactly the discovered file ids
that are neither ingested nor ignored, sorted ascending by default and
descending in `newest` mode; on discovered `{1,2,3,4,5}`, ingested
`{2,4}`, ignored `{5}` it is `[1,3]` ascending and `[3,1]`
descending. -/
theorem C6_pending_queue :
    ∀ discovered ingested ignored : List Nat,
      (∀ (newest : Bool) (x : Nat),
          x ∈ computePendingIds discovered ingested ignored newest ↔
            x ∈ discovered ∧ x ∉ ingested ∧ x ∉ ignored) ∧
        (computePendingIds discovered ingested ignored false).Sorted (· ≤ ·) ∧
        (computePendingIds discovered ingested ignored true).Sorted (· ≥ ·) ∧
        computePendingIds [1, 2, 3, 4, 5] [2, 4] [5] false = [1, 3] ∧
        computePendingIds [1, 2, 3, 4, 5] [2, 4] [5] true = [3, 1] := by
  intro discovered ingested ignored
  refine ⟨?_, ?_, ?_, by decide, by decide⟩
  · intro newest x
    cases newest <;>
      simp [computePendingIds, List.mem_insertionSort, List.mem_filter, and_assoc]
  · simp only [computePendingIds, if_neg Bool.false_ne_true]
    exact List.sorted_insertionSort _ _
  · simp only [computePendingIds, if_pos rfl]
    exact List.sorted_insertionSort _ _

/-- Appending a character leaves a string non-empty, so the bugged
source's page token never lets the `while (nextPageToken)` condition
fail. -/
theorem append_x_ne_empty (s : String) : s ++ "x" ≠ "" := by
  intro h
  have h2 := congrArg String.length h
  rw [String.length_append] at h2
  have hx : ("x" : String).length = 1 := rfl
  have h0 : ("" : String).length = 0 := rfl
  omega

/-- Once the single file id of the bugged source's page has been seen,
every further page request repeats the same state (the item loop breaks
immediately, the token stays non-empty), so the pagination loop runs out
of any amount of fuel. -/
theorem getReportsLoop_bugged_none :
    ∀ (fuel : Nat) (token : String) (seen : List Nat)
      (reports : List (Nat × String)), 1 ∈ seen →
      getReportsLoop buggedSource fuel token seen reports = none := by
  intro fuel
  induction fuel with
  | zero => intro token seen reports _; rfl
  | succ fuel ih =>
    intro token seen reports hseen
    simp only [getReportsLoop, buggedSource, processItems, if_pos hseen,
      List.length_cons, List.length_nil]
    rw [if_neg (append_x_ne_empty token)]
    exact ih (token ++ "x") seen reports hseen

/-- Claim C1 (code bug): on a paginated source that returns its final
page indefinitely with a changing non-empty token and identical items,
`CMReportFetcher.getReports` never terminates — for every number of
allowed page requests the loop is still running. The `break` on a
repeated file id exits only the inner `for` loop over the page's items;
the outer `do … while (nextPageToken)` keeps re-requesting the final
page because its token is never empty. -/
theorem C1_getReports_diverges_on_bugged_source :
    ∀ fuel : Nat, getReports buggedSource fuel = none := by
  intro fuel
  cases fuel with
  | zero => rfl
  | succ fuel =>
    show getReportsLoop buggedSource (fuel + 1) "" [] [] = none
    simp only [getReportsLoop, buggedSource, processItems, mapSet,
      List.length_cons, List.length_nil]
    norm_num
    rw [if_neg (show ("x" : String) ≠ "" by decide)]
    exact getReportsLoop_bugged_none fuel "x" [1] [(1, "apiUrl1")] (by decide)

/-- Unfolding step for `cmRun` on a non-errored state. -/
theorem cmRun_cons (createResp : TableSchema → TableSchema) (st : CMSt)
    (l : String) (rest : List String) (h : st.base.errored = false) :
    cmRun createResp st (l :: rest) =
      cmRun createResp (cmTransform createResp st l) rest := by
  simp [cmRun, h]

/-- In the metadata-scanning phase (no flag set, not errored), every line
other than the `Report Fields` sentinel leaves the initial state
unchanged. -/
theorem cmRun_skip_metas (createResp : TableSchema → TableSchema)
    (ts : Option TableSchema) (fid : Nat) :
    ∀ (metas rest : List String), (∀ m ∈ metas, m ≠ FIELDS_HEADER) →
      cmRun createResp (cmInit ts fid) (metas ++ rest) =
        cmRun createResp (cmInit ts fid) rest := by
  intro metas
  induction metas with
  | nil => intro rest _; rfl
  | cons m ms ih =>
    intro rest h
    have hm : m ≠ FIELDS_HEADER := h m (by simp)
    have hstep : cmTransform createResp (cmInit ts fid) m = cmInit ts fid := by
      simp [cmTransform, cmInit, extractorInit, hm]
    rw [List.cons_append, cmRun_cons createResp _ m (ms ++ rest) rfl, hstep,
      ih rest (fun x hx => h x (by simp [hx]))]

/-- In the passthrough phase each line emits the buffered previous line
and buffers itself, so over `ws ++ [last]` exactly
`previous :: ws` is emitted (the final line stays buffered). -/
theorem cmRun_passthrough (createResp : TableSchema → TableSchema) :
    ∀ (ws : List String) (last : String) (st : CMSt),
      st.passthrough = true → st.base.errored = false →
      (cmRun createResp st (ws ++ [last])).base.output =
        st.base.output ++
          (st.previous :: ws).map
            (fun r => r ++ st.base.fileIdColumn ++ "\n") := by
  intro ws
  induction ws with
  | nil =>
    intro last st hp he
    rw [List.nil_append, cmRun_cons createResp st last [] he]
    simp [cmTransform, hp, pushLine, cmRun]
  | cons w ws ih =>
    intro last st hp he
    rw [List.cons_append, cmRun_cons createResp st w (ws ++ [last]) he]
    have ht : cmTransform createResp st w =
        { st with base := pushLine st.base st.previous, previous := w } := by
      simp [cmTransform, hp]
    rw [ht, ih last _ (by simp [hp]) (by simp [pushLine, he])]
    simp [pushLine]

/-- `handleFields` with no schema of record takes the creation path: it
leaves the error flag, output, counter and file-ID column alone, records
the created schema, and adopts the destination's returned schema. -/
theorem handleFields_none (createResp : TableSchema → TableSchema)
    (st : ExtractorSt) (ns : List String) (h : st.tableSchema = none) :
    handleFields createResp st ns =
      { st with
        tableSchema := some (createResp (buildSchema ns).1)
        createdWith := some (buildSchema ns).1
        hfCalls := st.hfCalls + 1 } := by
  simp [handleFields, h, createTable]

/-- `handleFields` never touches the row counter, the output, the error
flag of a creation path, or the file-ID column. -/
theorem handleFields_frame (createResp : TableSchema → TableSchema)
    (st : ExtractorSt) (ns : List String) :
    (handleFields createResp st ns).counter = st.counter ∧
      (handleFields createResp st ns).output = st.output ∧
      (handleFields createResp st ns).fileIdColumn = st.fileIdColumn := by
  simp only [handleFields]
  cases h : st.tableSchema with
  | none => simp [h, createTable]
  | some expected =>
    simp only [h, checkSchema]
    split
    · simp
    · split <;> simp

/-- Claim C2: on input of the form metadata lines (none of them the
sentinel), the `Report Fields` sentinel, a header line, data rows
`R1..Rn` (n ≥ 1) and a single footer line, the CM extractor emits
exactly `R1..Rn` in order, each augmented with the tracking column and a
trailing newline; the header line is never emitted as data and the
footer line is never emitted. -/
theorem C2_cm_one_line_behind_buffering :
    ∀ (createResp : TableSchema → TableSchema) (fileId : Nat)
      (metas : List String) (H : String) (rows : List String) (footer : String),
      (∀ m ∈ metas, m ≠ FIELDS_HEADER) → rows ≠ [] →
      (cmRun createResp (cmInit none fileId)
          (metas ++ FIELDS_HEADER :: H :: (rows ++ [footer]))).base.output =
        rows.map (fun r => r ++ ("," ++ toString fileId) ++ "\n") := by
  intro cr fid metas H rows footer hmetas hrows
  rw [cmRun_skip_metas cr none fid metas _ hmetas,
    cmRun_cons cr _ FIELDS_HEADER _ rfl]
  have h1 : cmTransform cr (cmInit none fid) FIELDS_HEADER =
      { cmInit none fid with fieldsFound := true } := by
    simp [cmTransform, cmInit, extractorInit]
  rw [h1, cmRun_cons cr _ H _ rfl]
  have h2 : cmTransform cr { cmInit none fid with fieldsFound := true } H =
      { cmInit none fid with
        fieldsFound := true
        csvFound := true
        base := handleFields cr (extractorInit none fid) (H.splitOn ",") } := by
    simp [cmTransform, cmInit, extractorInit]
  have hb := handleFields_none cr (extractorInit none fid) (H.splitOn ",") rfl
  rw [h2]
  obtain ⟨r, rs, rfl⟩ : ∃ r rs, rows = r :: rs := by
    cases rows with
    | nil => exact absurd rfl hrows
    | cons a b => exact ⟨a, b, rfl⟩
  rw [List.cons_append, cmRun_cons cr _ r _ (by simp only [hb]; rfl)]
  have h3 : cmTransform cr
      { cmInit none fid with
        fieldsFound := true
        csvFound := true
        base := handleFields cr (extractorInit none fid) (H.splitOn ",") } r =
      { cmInit none fid with
        fieldsFound := true
        csvFound := true
        base := handleFields cr (extractorInit none fid) (H.splitOn ",")
        previous := r
        passthrough := true } := by
    simp [cmTransform, cmInit]
  rw [h3, cmRun_passthrough cr rs footer _ (by simp) (by simp only [hb]; rfl), hb]
  simp [extractorInit]

/-- `handleFields` always increments the reconciliation counter by
exactly one. -/
theorem handleFields_hfCalls (createResp : TableSchema → TableSchema)
    (st : ExtractorSt) (ns : List String) :
    (handleFields createResp st ns).hfCalls = st.hfCalls + 1 := by
  simp only [handleFields]
  cases h : st.tableSchema with
  | none => simp [h, createTable]
  | some expected =>
    simp only [h, checkSchema]
    split
    · simp
    · split <;> simp

/-- One `_transform` step preserves the invariant that the
reconciliation counter is one after the header has been consumed and
zero before. -/
theorem cmTransform_hfCalls (createResp : TableSchema → TableSchema)
    (st : CMSt) (l : String)
    (h : st.base.hfCalls = if st.csvFound then 1 else 0) :
    (cmTransform createResp st l).base.hfCalls =
      if (cmTransform createResp st l).csvFound then 1 else 0 := by
  unfold cmTransform
  by_cases hp : st.passthrough
  · simp [hp, pushLine, h]
  · by_cases hc : st.csvFound
    · simp [hp, hc, h]
    · by_cases hf : st.fieldsFound
      · simp [hp, hc, hf, handleFields_hfCalls, h]
      · by_cases hd : l = FIELDS_HEADER
        · simp [hp, hc, hf, hd, h]
        · simp [hp, hc, hf, hd, h]

/-- The header-consumption invariant carries over a whole run. -/
theorem cmRun_hfCalls_inv (createResp : TableSchema → TableSchema) :
    ∀ (lines : List String) (st : CMSt),
      st.base.hfCalls = (if st.csvFound then 1 else 0) →
      (cmRun createResp st lines).base.hfCalls =
        if (cmRun createResp st lines).csvFound then 1 else 0 := by
  intro lines
  induction lines with
  | nil => intro st h; exact h
  | cons l rest ih =>
    intro st h
    by_cases he : st.base.errored
    · simp [cmRun, he, h]
    · rw [cmRun_cons createResp st l rest (by simp [he])]
      exact ih _ (cmTransform_hfCalls createResp st l h)

/-- Claim C3: at the header row, schema reconciliation happens exactly
once per file. With no schema of record, `handleFields` creates the
table from the freshly built header schema and adopts the destination's
returned schema as the schema of record; with a schema of record it
compares positionally, on mismatch renames the existing schema's legacy
field names by the fixed patterns and re-compares, and errors exactly
when the schemas still mismatch. The CM extractor never invokes the
reconciliation more than once per file. -/
theorem C3_schema_reconciliation :
    ∀ (createResp : TableSchema → TableSchema) (st : ExtractorSt)
      (names : List String),
      (handleFields createResp { st with tableSchema := none } names =
        { st with
          tableSchema := some (createResp (buildSchema names).1)
          createdWith := some (buildSchema names).1
          hfCalls := st.hfCalls + 1 }) ∧
      (∀ expected : TableSchema,
        handleFields createResp { st with tableSchema := some expected } names =
          { st with
            tableSchema := some expected
            hfCalls := st.hfCalls + 1
            errored := st.errored ||
              (!compareSchema expected (buildSchema names).1 &&
                (match (transformSchema expected NAME_PATTERNS).1 with
                  | some renamedSchema =>
                    !compareSchema renamedSchema (buildSchema names).1
                  | none => true)) }) ∧
      (∀ (tableSchema : Option TableSchema) (fileId : Nat)
        (lines : List String),
        (cmRun createResp (cmInit tableSchema fileId) lines).base.hfCalls ≤ 1) := by
  intro createResp st names
  refine ⟨?_, ?_, ?_⟩
  · rw [handleFields_none createResp _ names rfl]
  · intro expected
    simp only [handleFields, checkSchema]
    cases h1 : compareSchema expected (buildSchema names).1 with
    | true => simp [h1]
    | false =>
      cases hr : (transformSchema expected NAME_PATTERNS).1 with
      | none => simp [h1, hr]
      | some renamedSchema =>
        cases h2 : compareSchema renamedSchema (buildSchema names).1 with
        | true => simp [h1, hr, h2]
        | false => simp [h1, hr, h2]
  · intro tableSchema fileId lines
    have h := cmRun_hfCalls_inv createResp lines (cmInit tableSchema fileId)
      (by simp [cmInit, extractorInit])
    rw [h]
    split <;> omega

/-- Claim C5: the extractor flush step errors exactly when the row
counter is zero, and an input with a recognized sentinel/header sequence
but no data rows reaches end-of-stream with a zero counter, hence errors
rather than succeeding silently. -/
theorem C5_empty_file_flush_error :
    (∀ st : ExtractorSt, flushErrors st = true ↔ st.counter = 0) ∧
      ∀ (createResp : TableSchema → TableSchema) (ts : Option TableSchema)
        (fileId : Nat) (metas : List String) (H : String),
        (∀ m ∈ metas, m ≠ FIELDS_HEADER) →
        (cmRun createResp (cmInit ts fileId)
            (metas ++ [FIELDS_HEADER, H])).base.counter = 0 ∧
          flushErrors (cmRun createResp (cmInit ts fileId)
              (metas ++ [FIELDS_HEADER, H])).base = true := by
  constructor
  · intro st; simp [flushErrors]
  · intro createResp ts fileId metas H hmetas
    rw [cmRun_skip_metas createResp ts fileId metas _ hmetas]
    rw [show ([FIELDS_HEADER, H] : List String) = FIELDS_HEADER :: [H] from rfl,
      cmRun_cons createResp _ FIELDS_HEADER [H] rfl]
    have h1 : cmTransform createResp (cmInit ts fileId) FIELDS_HEADER =
        { cmInit ts fileId with fieldsFound := true } := by
      simp [cmTransform, cmInit, extractorInit]
    rw [h1, cmRun_cons createResp _ H [] rfl]
    have h2 : cmTransform createResp { cmInit ts fileId with fieldsFound := true } H =
        { cmInit ts fileId with
          fieldsFound := true
          csvFound := true
          base := handleFields createResp (extractorInit ts fileId)
            (H.splitOn ",") } := by
      simp [cmTransform, cmInit, extractorInit]
    rw [h2]
    have hc :
        (handleFields createResp (extractorInit ts fileId) (H.splitOn ",")).counter
          = 0 :=
      (handleFields_frame createResp (extractorInit ts fileId) (H.splitOn ",")).1
    simp [cmRun, flushErrors, hc]

/-- Claim C5 witness: a concrete file with one metadata line, the
sentinel, a header and no data rows ends with counter zero and a flush
error. -/
theorem C5_witness :
    (cmRun id (cmInit none 3) (["m1"] ++ [FIELDS_HEADER, "a,b"])).base.counter = 0 ∧
      flushErrors (cmRun id (cmInit none 3)
          (["m1"] ++ [FIELDS_HEADER, "a,b"])).base = true :=
  C5_empty_file_flush_error.2 id none 3 ["m1"] "a,b" (by decide)

/-- Claim C2 witness: the concrete input of the spec's example emits
exactly the three data rows, augmented with the tracking column. -/
theorem C2_witness :
    (cmRun id (cmInit none 7)
        (["meta"] ++ FIELDS_HEADER :: "a,b" ::
          (["r1", "r2", "r3"] ++ ["sum"]))).base.output =
      ["r1,7\n", "r2,7\n", "r3,7\n"] :=
  (C2_cm_one_line_behind_buffering id 7 ["meta"] "a,b" ["r1", "r2", "r3"] "sum"
      (by decide) (by decide)).trans (by decide)

end Argon
